import Mathlib

/-!
Verification development for the OpenUDS deferred-deletion engine
(src/server/src/uds/workers/deferred_deletion.py).

The engine keeps four persisted groups of DeletionInfo records (TO_STOP,
STOPPING, TO_DELETE, DELETING), acquires batches from them, calls into a
hypervisor driver, and re-persists or drops each record according to retry
budgets.  Wall times and delay rates are modelled as integers (exact arithmetic: every claim concerns the symbolic structure of the scheduling expressions, which lives in any ordered ring); driver calls are
modelled as outcome oracles (a call either returns a value or raises one of
the three exception kinds the code distinguishes).
-/

set_option maxHeartbeats 1000000

/-- Modelled from the spec: the constants module uds.core.consts.deferred_deletion
is not under src/; spec section 6 lists them as deployment tunables, so they are
carried as parameters.  CHECK_INTERVAL is the base reschedule delay and
FATAL_ERROR_INTERVAL_MULTIPLIER the extra slowdown after fatal errors. -/
structure Consts where
  CHECK_INTERVAL : ℤ
  FATAL_ERROR_INTERVAL_MULTIPLIER : ℤ
  MAX_FATAL_ERROR_RETRIES : ℕ
  MAX_RETRAYABLE_ERROR_RETRIES : ℕ
  MAX_DELETIONS_AT_ONCE : ℕ
  RETRIES_TO_RETRY : ℕ
deriving Repr, DecidableEq

/-- Embeds next_execution_calculator: sql_now() plus CHECK_INTERVAL times the
fatal multiplier (if fatal) times the delay rate.  The current wall time is an
explicit argument. -/
def next_execution_calculator (c : Consts) (now : ℤ) (fatal : Bool) (delay_rate : ℤ) : ℤ :=
  now + c.CHECK_INTERVAL * (if fatal then c.FATAL_ERROR_INTERVAL_MULTIPLIER else 1) * delay_rate

/-- Embeds the DeletionInfo dataclass. -/
structure DeletionInfo where
  vmid : String
  created : ℤ
  next_check : ℤ
  service_uuid : String
  fatal_retries : ℕ
  total_retries : ℕ
  retries : ℕ
deriving Repr, DecidableEq

/-- Embeds DeletionInfo.generate_key: the f-string so-called service_uuid_vmid key. -/
def DeletionInfo.generate_key (service_uuid vmid : String) : String :=
  service_uuid ++ "_" ++ vmid

/-- Embeds the DeletionInfo.key property. -/
def DeletionInfo.key (info : DeletionInfo) : String :=
  DeletionInfo.generate_key info.service_uuid info.vmid

/-- One persisted group: the storage dictionary for one lifecycle state,
modelled as an association list from key to record. -/
abbrev StoreDict := List (String × DeletionInfo)

/-- Embeds a dict write storage_dict[k] = v: any previous binding of k is
replaced by the new one. -/
def storeInsert (d : StoreDict) (k : String) (v : DeletionInfo) : StoreDict :=
  d.filter (fun p => p.1 != k) ++ [(k, v)]

/-- Dict lookup. -/
def storeLookup (d : StoreDict) (k : String) : Option DeletionInfo :=
  (d.find? (fun p => p.1 == k)).map (fun p => p.2)

/-- Number of entries stored under key k. -/
def countKey (d : StoreDict) (k : String) : ℕ :=
  (d.filter (fun p => p.1 == k)).length

/-- The keys bound in a group. -/
def keysOf (d : StoreDict) : List String :=
  d.map (fun p => p.1)

/-- Key membership in a group. -/
def hasKey (d : StoreDict) (k : String) : Prop :=
  k ∈ keysOf d

instance (d : StoreDict) (k : String) : Decidable (hasKey d k) := by
  unfold hasKey
  exact inferInstance

/-- Stable insertion step for sorting a group snapshot by next_check ascending,
as the Python sorted(..., key=lambda x: x[1].next_check) does. -/
def insertByNextCheck (x : String × DeletionInfo) : StoreDict → StoreDict
  | [] => [x]
  | y :: ys =>
    if x.2.next_check < y.2.next_check then x :: y :: ys else y :: insertByNextCheck x ys

/-- Stable sort of a group snapshot by next_check ascending. -/
def sortByNextCheck : StoreDict → StoreDict
  | [] => []
  | x :: xs => insertByNextCheck x (sortByNextCheck xs)

/-- Embeds the loop body of DeletionInfo.get_from_storage over the sorted
snapshot: drop records whose total_retries reached the budget, skip records not
yet due, drop records whose service cannot be instantiated, stop collecting
once the batch counter would exceed MAX_DELETIONS_AT_ONCE, otherwise remove the
record from the group and put it in the batch.  Returns the remaining group and
the acquired batch. -/
def acquireLoop (c : Consts) (now : ℤ) (resolvable : String → Bool) :
    StoreDict → ℕ → StoreDict × List DeletionInfo
  | [], _ => ([], [])
  | (k, info) :: rest, count =>
    if c.MAX_RETRAYABLE_ERROR_RETRIES ≤ info.total_retries then
      acquireLoop c now resolvable rest count
    else if now < info.next_check then
      let r := acquireLoop c now resolvable rest count
      ((k, info) :: r.1, r.2)
    else if resolvable info.service_uuid = false then
      acquireLoop c now resolvable rest count
    else if c.MAX_DELETIONS_AT_ONCE < count + 1 then
      ((k, info) :: rest, [])
    else
      let r := acquireLoop c now resolvable rest (count + 1)
      (r.1, info :: r.2)

/-- Embeds DeletionInfo.get_from_storage: sort the snapshot by next_check, then
run the acquisition loop with the batch counter starting at zero.  Whether a
service_uuid can be resolved to a driver instance is an oracle. -/
def DeletionInfo.get_from_storage (c : Consts) (now : ℤ) (resolvable : String → Bool)
    (d : StoreDict) : StoreDict × List DeletionInfo :=
  acquireLoop c now resolvable (sortByNextCheck d) 0

/-- The four lifecycle groups of types.DeferredStorageGroup. -/
inductive DGroup
  | to_stop
  | stopping
  | to_delete
  | deleting
deriving DecidableEq, Repr, Fintype

/-- The whole deferred storage: one dictionary per group. -/
structure EngineState where
  to_stop : StoreDict
  stopping : StoreDict
  to_delete : StoreDict
  deleting : StoreDict
deriving DecidableEq, Repr

def emptyState : EngineState := ⟨[], [], [], []⟩

def getGroup (s : EngineState) : DGroup → StoreDict
  | .to_stop => s.to_stop
  | .stopping => s.stopping
  | .to_delete => s.to_delete
  | .deleting => s.deleting

def setGroup (s : EngineState) (g : DGroup) (d : StoreDict) : EngineState :=
  match g with
  | .to_stop => { s with to_stop := d }
  | .stopping => { s with stopping := d }
  | .to_delete => { s with to_delete := d }
  | .deleting => { s with deleting := d }

/-- Embeds DeletionInfo.sync_to_storage: write this record into the given group
under its key. -/
def DeletionInfo.sync_to_storage (info : DeletionInfo) (g : DGroup) (s : EngineState) :
    EngineState :=
  setGroup s g (storeInsert (getGroup s g) info.key info)

/-- Embeds DeletionInfo.create_on_storage: store a fresh record with zero
counters, created = now and next_check computed from the delay rate. -/
def DeletionInfo.create_on_storage (c : Consts) (now : ℤ) (g : DGroup)
    (vmid service_uuid : String) (delay_rate : ℤ) (s : EngineState) : EngineState :=
  setGroup s g (storeInsert (getGroup s g) (DeletionInfo.generate_key service_uuid vmid)
    { vmid := vmid
      created := now
      next_check := next_execution_calculator c now false delay_rate
      service_uuid := service_uuid
      fatal_retries := 0
      total_retries := 0
      retries := 0 })

/-- The three exception classes the engine distinguishes: NotFoundError,
RetryableError, and any other (fatal) exception. -/
inductive ExcKind
  | notFound
  | retryable
  | fatal
deriving DecidableEq, Repr

/-- Outcome of one driver call: a returned value or a raised exception. -/
inductive DRes (α : Type)
  | ok : α → DRes α
  | exc : ExcKind → DRes α
deriving DecidableEq, Repr

/-- The two capability flags the engine reads from a driver. -/
structure SvcFlags where
  must_stop_before_deletion : Bool
  should_try_soft_shutdown : Bool
deriving DecidableEq, Repr

/-- Oracle for the driver calls made while processing one item, together with
the delay rate the surrounding ExecutionTimer measures for the item. -/
structure CallOutcomes where
  is_running : DRes Bool
  shutdown : DRes Unit
  stop : DRes Unit
  execute_delete : DRes Unit
  is_deleted : DRes Bool
  delay_rate : ℤ
deriving DecidableEq, Repr

/-- Embeds DeferredDeletionWorker._process_exception.  The record passed in
carries whatever mutations the phase already made before the exception.  On
NotFoundError the record is dropped as success.  Otherwise: a fatal exception
first sets next_check with the fatal multiplier and bumps fatal_retries,
dropping the record when the fatal budget is reached; then (for both fatal and
retryable) next_check is overwritten with the non-fatal value, total_retries is
bumped, and the record is dropped when the total budget is reached, else
re-persisted into to_group. -/
def DeferredDeletionWorker.process_exception (c : Consts) (now : ℤ) (info : DeletionInfo)
    (to_group : DGroup) (e : ExcKind) (delay_rate : ℤ) : Option (DGroup × DeletionInfo) :=
  match e with
  | .notFound => none
  | .retryable =>
    let info1 := { info with
      next_check := next_execution_calculator c now false delay_rate
      total_retries := info.total_retries + 1 }
    if c.MAX_RETRAYABLE_ERROR_RETRIES ≤ info1.total_retries then none
    else some (to_group, info1)
  | .fatal =>
    let info1 := { info with
      next_check := next_execution_calculator c now true delay_rate
      fatal_retries := info.fatal_retries + 1 }
    if c.MAX_FATAL_ERROR_RETRIES ≤ info1.fatal_retries then none
    else
      let info2 := { info1 with
        next_check := next_execution_calculator c now false delay_rate
        total_retries := info1.total_retries + 1 }
      if c.MAX_RETRAYABLE_ERROR_RETRIES ≤ info2.total_retries then none
      else some (to_group, info2)

/-- Embeds the per-item body of DeferredDeletionWorker.process_to_stop.
Returns the group the record is re-persisted into together with the persisted
record, or none when the record is dropped. -/
def DeferredDeletionWorker.process_to_stop_one (c : Consts) (now : ℤ) (o : CallOutcomes)
    (svc : SvcFlags) (info : DeletionInfo) : Option (DGroup × DeletionInfo) :=
  match o.is_running with
  | .exc e => DeferredDeletionWorker.process_exception c now info .to_stop e o.delay_rate
  | .ok false => some (.to_delete, info)
  | .ok true =>
    if info.retries < c.RETRIES_TO_RETRY then
      match (if svc.should_try_soft_shutdown then o.shutdown else o.stop) with
      | .exc e => DeferredDeletionWorker.process_exception c now info .to_stop e o.delay_rate
      | .ok _ =>
        some (.stopping, { info with
          fatal_retries := 0
          total_retries := 0
          next_check := next_execution_calculator c now false o.delay_rate })
    else
      let info1 := { info with total_retries := info.total_retries + 1, retries := 0 }
      match o.stop with
      | .exc e => DeferredDeletionWorker.process_exception c now info1 .to_stop e o.delay_rate
      | .ok _ =>
        some (.stopping, { info1 with
          next_check := next_execution_calculator c now false o.delay_rate })

/-- Embeds the per-item body of DeferredDeletionWorker.process_stopping. -/
def DeferredDeletionWorker.process_stopping_one (c : Consts) (now : ℤ) (o : CallOutcomes)
    (info : DeletionInfo) : Option (DGroup × DeletionInfo) :=
  let info1 := { info with retries := info.retries + 1 }
  if c.RETRIES_TO_RETRY < info1.retries then
    some (.to_stop, { info1 with
      next_check := next_execution_calculator c now false 1
      total_retries := info1.total_retries + 1 })
  else
    match o.is_running with
    | .exc e => DeferredDeletionWorker.process_exception c now info1 .stopping e o.delay_rate
    | .ok true =>
      some (.stopping, { info1 with
        next_check := next_execution_calculator c now false o.delay_rate
        total_retries := info1.total_retries + 1 })
    | .ok false =>
      some (.to_delete, { info1 with
        next_check := next_execution_calculator c now false o.delay_rate
        fatal_retries := 0
        total_retries := 0 })

/-- Embeds the per-item body of DeferredDeletionWorker.process_to_delete. -/
def DeferredDeletionWorker.process_to_delete_one (c : Consts) (now : ℤ) (o : CallOutcomes)
    (svc : SvcFlags) (info : DeletionInfo) : Option (DGroup × DeletionInfo) :=
  match (if svc.must_stop_before_deletion then o.is_running else .ok false : DRes Bool) with
  | .exc e => DeferredDeletionWorker.process_exception c now info .to_delete e o.delay_rate
  | .ok true => some (.to_stop, info)
  | .ok false =>
    match o.execute_delete with
    | .exc e => DeferredDeletionWorker.process_exception c now info .to_delete e o.delay_rate
    | .ok _ =>
      some (.deleting, { info with
        next_check := next_execution_calculator c now false o.delay_rate
        retries := 0
        total_retries := info.total_retries + 1 })

/-- Embeds the per-item body of DeferredDeletionWorker.process_deleting. -/
def DeferredDeletionWorker.process_deleting_one (c : Consts) (now : ℤ) (o : CallOutcomes)
    (info : DeletionInfo) : Option (DGroup × DeletionInfo) :=
  let info1 := { info with retries := info.retries + 1 }
  if c.RETRIES_TO_RETRY < info1.retries then
    some (.to_delete, { info1 with
      next_check := next_execution_calculator c now false 1
      total_retries := info1.total_retries + 1 })
  else
    match o.is_deleted with
    | .exc e => DeferredDeletionWorker.process_exception c now info1 .deleting e o.delay_rate
    | .ok true => none
    | .ok false =>
      some (.deleting, { info1 with
        next_check := next_execution_calculator c now false o.delay_rate
        total_retries := info1.total_retries + 1 })

/-- Re-persist one processed record: items are dropped when the step returns
none, otherwise written into the step's destination group. -/
def applyStep (step : DeletionInfo → Option (DGroup × DeletionInfo))
    (st : EngineState) (i : DeletionInfo) : EngineState :=
  match step i with
  | none => st
  | some (g2, i2) => i2.sync_to_storage g2 st

/-- One engine phase: acquire a batch from group g (removing it and the dropped
records from the group), then process each batch item in order. -/
def runPhase (c : Consts) (now : ℤ) (resolvable : String → Bool)
    (step : DeletionInfo → Option (DGroup × DeletionInfo)) (g : DGroup)
    (s : EngineState) : EngineState :=
  let acq := DeletionInfo.get_from_storage c now resolvable (getGroup s g)
  acq.2.foldl (applyStep step) (setGroup s g acq.1)

/-- Per-tick environment: the service-resolution oracle, the per-service
capability flags, and per-phase driver call outcomes keyed by item key. -/
structure TickEnv where
  resolvable : String → Bool
  flags : String → SvcFlags
  outcomes_to_stop : String → CallOutcomes
  outcomes_stopping : String → CallOutcomes
  outcomes_to_delete : String → CallOutcomes
  outcomes_deleting : String → CallOutcomes

/-- Embeds DeferredDeletionWorker.process_to_stop. -/
def DeferredDeletionWorker.process_to_stop (c : Consts) (now : ℤ) (env : TickEnv)
    (s : EngineState) : EngineState :=
  runPhase c now env.resolvable
    (fun info =>
      DeferredDeletionWorker.process_to_stop_one c now (env.outcomes_to_stop info.key)
        (env.flags info.service_uuid) info)
    .to_stop s

/-- Embeds DeferredDeletionWorker.process_stopping. -/
def DeferredDeletionWorker.process_stopping (c : Consts) (now : ℤ) (env : TickEnv)
    (s : EngineState) : EngineState :=
  runPhase c now env.resolvable
    (fun info =>
      DeferredDeletionWorker.process_stopping_one c now (env.outcomes_stopping info.key) info)
    .stopping s

/-- Embeds DeferredDeletionWorker.process_to_delete. -/
def DeferredDeletionWorker.process_to_delete (c : Consts) (now : ℤ) (env : TickEnv)
    (s : EngineState) : EngineState :=
  runPhase c now env.resolvable
    (fun info =>
      DeferredDeletionWorker.process_to_delete_one c now (env.outcomes_to_delete info.key)
        (env.flags info.service_uuid) info)
    .to_delete s

/-- Embeds DeferredDeletionWorker.process_deleting. -/
def DeferredDeletionWorker.process_deleting (c : Consts) (now : ℤ) (env : TickEnv)
    (s : EngineState) : EngineState :=
  runPhase c now env.resolvable
    (fun info =>
      DeferredDeletionWorker.process_deleting_one c now (env.outcomes_deleting info.key) info)
    .deleting s

/-- Embeds DeferredDeletionWorker.run: the four phases in order. -/
def DeferredDeletionWorker.run (c : Consts) (now : ℤ) (env : TickEnv)
    (s : EngineState) : EngineState :=
  DeferredDeletionWorker.process_deleting c now env
    (DeferredDeletionWorker.process_to_delete c now env
      (DeferredDeletionWorker.process_stopping c now env
        (DeferredDeletionWorker.process_to_stop c now env s)))

/-- The fall-through tail of the synchronous add path: execute_delete, then on
success persist into DELETING with the measured delay rate, on NotFoundError
return unchanged, on any other exception persist into TO_DELETE. -/
def DeferredDeletionWorker.addExecuteDelete (c : Consts) (now : ℤ) (oc : CallOutcomes)
    (service_uuid vmid : String) (s : EngineState) : EngineState :=
  match oc.execute_delete with
  | .exc .notFound => s
  | .exc _ => DeletionInfo.create_on_storage c now .to_delete vmid service_uuid oc.delay_rate s
  | .ok _ => DeletionInfo.create_on_storage c now .deleting vmid service_uuid oc.delay_rate s

/-- Embeds DeferredDeletionWorker.add.  With execute_later the record is
persisted directly into TO_STOP or TO_DELETE.  Otherwise the first attempt runs
eagerly: when the service must be stopped first and is running, shutdown or
stop is issued and on success the record is created in STOPPING with the
default delay rate 1; otherwise execute_delete runs; NotFoundError leaves the
state unchanged and any other exception persists the record into TO_DELETE
with the measured delay rate. -/
def DeferredDeletionWorker.add (c : Consts) (now : ℤ) (svc : SvcFlags) (oc : CallOutcomes)
    (service_uuid vmid : String) (execute_later : Bool) (s : EngineState) : EngineState :=
  if execute_later then
    if svc.must_stop_before_deletion then
      DeletionInfo.create_on_storage c now .to_stop vmid service_uuid 1 s
    else
      DeletionInfo.create_on_storage c now .to_delete vmid service_uuid 1 s
  else
    if svc.must_stop_before_deletion then
      match oc.is_running with
      | .exc .notFound => s
      | .exc _ =>
        DeletionInfo.create_on_storage c now .to_delete vmid service_uuid oc.delay_rate s
      | .ok true =>
        match (if svc.should_try_soft_shutdown then oc.shutdown else oc.stop) with
        | .exc .notFound => s
        | .exc _ =>
          DeletionInfo.create_on_storage c now .to_delete vmid service_uuid oc.delay_rate s
        | .ok _ => DeletionInfo.create_on_storage c now .stopping vmid service_uuid 1 s
      | .ok false => DeferredDeletionWorker.addExecuteDelete c now oc service_uuid vmid s
    else
      DeferredDeletionWorker.addExecuteDelete c now oc service_uuid vmid s

/-- States reachable from empty storage by add calls and engine ticks, for any
wall times, services and driver behaviours. -/
inductive Reach (c : Consts) : EngineState → Prop
  | empty : Reach c emptyState
  | add {s : EngineState} (now : ℤ) (svc : SvcFlags) (oc : CallOutcomes)
      (service_uuid vmid : String) (execute_later : Bool) :
      Reach c s → Reach c (DeferredDeletionWorker.add c now svc oc service_uuid vmid execute_later s)
  | tick {s : EngineState} (now : ℤ) (env : TickEnv) :
      Reach c s → Reach c (DeferredDeletionWorker.run c now env s)

/-! Well-formedness predicates for the persisted state. -/

/-- Every entry of a group is stored under its record's key. -/
def WellKeyed (d : StoreDict) : Prop := ∀ p ∈ d, p.1 = p.2.key

/-- A group binds each key at most once (the dict property). -/
def NodupKeys (d : StoreDict) : Prop := (keysOf d).Nodup

/-- Each key lives in at most one of the four groups. -/
def CrossUnique (s : EngineState) : Prop :=
  ∀ g1 g2, g1 ≠ g2 → ∀ k ∈ keysOf (getGroup s g1), k ∉ keysOf (getGroup s g2)

/-- The storage invariant: well-keyed dict-like groups, with each key in at
most one group. -/
def StateWF (s : EngineState) : Prop :=
  (∀ g, WellKeyed (getGroup s g)) ∧ (∀ g, NodupKeys (getGroup s g)) ∧ CrossUnique s

/-- Retry budgets hold for every persisted record. -/
def RecordsOK (c : Consts) (s : EngineState) : Prop :=
  ∀ g, ∀ p ∈ getGroup s g,
    p.2.total_retries ≤ c.MAX_RETRAYABLE_ERROR_RETRIES ∧
    p.2.fatal_retries ≤ c.MAX_FATAL_ERROR_RETRIES

instance (d : StoreDict) : Decidable (WellKeyed d) := by
  unfold WellKeyed
  exact inferInstance

instance (d : StoreDict) : Decidable (NodupKeys d) := by
  unfold NodupKeys
  exact inferInstance

instance (s : EngineState) : Decidable (CrossUnique s) := by
  unfold CrossUnique
  exact inferInstance

instance (s : EngineState) : Decidable (StateWF s) := by
  unfold StateWF
  exact inferInstance

instance (c : Consts) (s : EngineState) : Decidable (RecordsOK c s) := by
  unfold RecordsOK
  exact inferInstance

/-! Lemmas about single-group dictionary operations. -/

theorem keysOf_append (d1 d2 : StoreDict) : keysOf (d1 ++ d2) = keysOf d1 ++ keysOf d2 := by
  simp [keysOf]

theorem mem_keysOf_iff {d : StoreDict} {k : String} : k ∈ keysOf d ↔ ∃ v, (k, v) ∈ d := by
  constructor
  · intro h
    rcases List.mem_map.mp h with ⟨p, hp, hk⟩
    exact ⟨p.2, by simpa [← hk] using hp⟩
  · rintro ⟨v, hv⟩
    exact List.mem_map.mpr ⟨(k, v), hv, rfl⟩

theorem mem_storeInsert {p : String × DeletionInfo} {d : StoreDict} {k : String}
    {v : DeletionInfo} : p ∈ storeInsert d k v → p ∈ d ∨ p = (k, v) := by
  intro h
  rcases List.mem_append.mp h with h | h
  · exact Or.inl (List.mem_of_mem_filter h)
  · exact Or.inr (by simpa using h)

theorem keysOf_storeInsert_mem {d : StoreDict} {k v k'} :
    k' ∈ keysOf (storeInsert d k v) ↔ k' = k ∨ k' ∈ keysOf d := by
  constructor
  · intro h
    rcases mem_keysOf_iff.mp h with ⟨w, hw⟩
    rcases mem_storeInsert hw with h | h
    · exact Or.inr (mem_keysOf_iff.mpr ⟨w, h⟩)
    · exact Or.inl (congrArg Prod.fst h)
  · intro h
    rcases h with h | h
    · subst h
      exact mem_keysOf_iff.mpr ⟨v, List.mem_append_right _ (List.mem_singleton.mpr rfl)⟩
    · rcases mem_keysOf_iff.mp h with ⟨w, hw⟩
      by_cases hk : k' = k
      · subst hk
        exact mem_keysOf_iff.mpr ⟨v, List.mem_append_right _ (List.mem_singleton.mpr rfl)⟩
      · refine mem_keysOf_iff.mpr ⟨w, List.mem_append_left _ ?_⟩
        exact List.mem_filter.mpr ⟨hw, by simpa using hk⟩

theorem nodupKeys_storeInsert {d : StoreDict} (k : String) (v : DeletionInfo) :
    NodupKeys d → NodupKeys (storeInsert d k v) := by
  intro h
  unfold NodupKeys storeInsert
  rw [keysOf_append]
  apply List.Nodup.append
  · exact ((List.filter_sublist d).map _).nodup h
  · simp [keysOf]
  · intro a ha hb
    have hk : a = k := by
      simpa [keysOf] using hb
    subst hk
    rcases mem_keysOf_iff.mp ha with ⟨w, hw⟩
    have := List.of_mem_filter hw
    simp at this

theorem wellKeyed_storeInsert {d : StoreDict} {k : String} {v : DeletionInfo}
    (hk : k = v.key) : WellKeyed d → WellKeyed (storeInsert d k v) := by
  intro h p hp
  rcases mem_storeInsert hp with h1 | h1
  · exact h p h1
  · subst h1
    simpa using hk

/-! Lemmas about the sorted snapshot. -/

theorem insertByNextCheck_perm (x : String × DeletionInfo) (l : StoreDict) :
    List.Perm (insertByNextCheck x l) (x :: l) := by
  induction l with
  | nil => simp [insertByNextCheck]
  | cons y ys ih =>
    simp only [insertByNextCheck]
    split
    · exact List.Perm.refl _
    · exact (ih.cons y).trans (List.Perm.swap x y ys)

theorem sortByNextCheck_perm (l : StoreDict) : List.Perm (sortByNextCheck l) l := by
  induction l with
  | nil => simp [sortByNextCheck]
  | cons x xs ih =>
    exact (insertByNextCheck_perm x (sortByNextCheck xs)).trans (ih.cons x)

theorem keysOf_sortByNextCheck_perm (l : StoreDict) : List.Perm (keysOf (sortByNextCheck l)) (keysOf l) :=
  (sortByNextCheck_perm l).map _

theorem wellKeyed_sortByNextCheck {l : StoreDict} (h : WellKeyed l) :
    WellKeyed (sortByNextCheck l) :=
  fun p hp => h p ((sortByNextCheck_perm l).mem_iff.mp hp)

theorem nodupKeys_sortByNextCheck {l : StoreDict} (h : NodupKeys l) :
    NodupKeys (sortByNextCheck l) :=
  (keysOf_sortByNextCheck_perm l).nodup_iff.mpr h

/-! Lemmas about batch acquisition. -/

theorem acquireLoop_keep_sublist (c : Consts) (now : ℤ) (res : String → Bool) :
    ∀ (l : StoreDict) (n : ℕ), List.Sublist (acquireLoop c now res l n).1 l := by
  intro l
  induction l with
  | nil => intro n; simp [acquireLoop]
  | cons p rest ih =>
    intro n
    obtain ⟨k, info⟩ := p
    simp only [acquireLoop]
    split
    · exact (ih n).cons _
    · split
      · exact (ih n).cons₂ _
      · split
        · exact (ih n).cons _
        · split
          · exact List.Sublist.refl _
          · exact (ih (n + 1)).cons _

theorem acquireLoop_batch_mem (c : Consts) (now : ℤ) (res : String → Bool) :
    ∀ (l : StoreDict) (n : ℕ) (i : DeletionInfo), i ∈ (acquireLoop c now res l n).2 →
      (∃ k, (k, i) ∈ l) ∧ i.total_retries < c.MAX_RETRAYABLE_ERROR_RETRIES := by
  intro l
  induction l with
  | nil => intro n i h; simp [acquireLoop] at h
  | cons p rest ih =>
    intro n i h
    obtain ⟨k, info⟩ := p
    simp only [acquireLoop] at h
    split at h
    · rcases ih n i h with ⟨⟨k', hk'⟩, hbound⟩
      exact ⟨⟨k', List.mem_cons_of_mem _ hk'⟩, hbound⟩
    · rename_i hbudget
      split at h
      · rcases ih n i h with ⟨⟨k', hk'⟩, hbound⟩
        exact ⟨⟨k', List.mem_cons_of_mem _ hk'⟩, hbound⟩
      · split at h
        · rcases ih n i h with ⟨⟨k', hk'⟩, hbound⟩
          exact ⟨⟨k', List.mem_cons_of_mem _ hk'⟩, hbound⟩
        · split at h
          · simp at h
          · rcases List.mem_cons.mp h with h1 | h1
            · subst h1
              exact ⟨⟨k, List.mem_cons_self _ _⟩, Nat.lt_of_not_le hbudget⟩
            · rcases ih (n + 1) i h1 with ⟨⟨k', hk'⟩, hbound⟩
              exact ⟨⟨k', List.mem_cons_of_mem _ hk'⟩, hbound⟩

theorem acquireLoop_batch_le (c : Consts) (now : ℤ) (res : String → Bool) :
    ∀ (l : StoreDict) (n : ℕ), n ≤ c.MAX_DELETIONS_AT_ONCE →
      (acquireLoop c now res l n).2.length + n ≤ c.MAX_DELETIONS_AT_ONCE := by
  intro l
  induction l with
  | nil => intro n h; simpa [acquireLoop] using h
  | cons p rest ih =>
    intro n h
    obtain ⟨k, info⟩ := p
    simp only [acquireLoop]
    split
    · exact ih n h
    · split
      · exact ih n h
      · split
        · exact ih n h
        · split
          · simpa using h
          · rename_i hcount
            have h1 : n + 1 ≤ c.MAX_DELETIONS_AT_ONCE := Nat.le_of_not_lt hcount
            have := ih (n + 1) h1
            simp only [List.length_cons]
            omega

theorem acquireLoop_batch_key_mem {c : Consts} {now : ℤ} {res : String → Bool}
    {l : StoreDict} {n : ℕ} {i : DeletionInfo} (hwk : WellKeyed l)
    (h : i ∈ (acquireLoop c now res l n).2) : i.key ∈ keysOf l := by
  rcases (acquireLoop_batch_mem c now res l n i h).1 with ⟨k, hk⟩
  have := hwk (k, i) hk
  exact mem_keysOf_iff.mpr ⟨i, by simpa [← this] using hk⟩

theorem acquireLoop_keep_keys_subset (c : Consts) (now : ℤ) (res : String → Bool)
    (l : StoreDict) (n : ℕ) : ∀ k ∈ keysOf (acquireLoop c now res l n).1, k ∈ keysOf l :=
  fun _ hk => ((acquireLoop_keep_sublist c now res l n).map _).subset hk

theorem acquireLoop_keys (c : Consts) (now : ℤ) (res : String → Bool) :
    ∀ (l : StoreDict) (n : ℕ), WellKeyed l → (keysOf l).Nodup →
      ((acquireLoop c now res l n).2.map DeletionInfo.key).Nodup ∧
      (∀ i ∈ (acquireLoop c now res l n).2, i.key ∉ keysOf (acquireLoop c now res l n).1) := by
  intro l
  induction l with
  | nil => intro n _ _; simp [acquireLoop]
  | cons p rest ih =>
    intro n hwk hnd
    obtain ⟨k, info⟩ := p
    have hwk_rest : WellKeyed rest := fun q hq => hwk q (List.mem_cons_of_mem _ hq)
    have hk_info : k = info.key := hwk (k, info) (List.mem_cons_self _ _)
    have hnd_rest : (keysOf rest).Nodup := by
      simpa [keysOf] using hnd.of_cons
    have hk_not : k ∉ keysOf rest := by
      have := hnd
      simp only [keysOf, List.map_cons, List.nodup_cons] at this
      simpa [keysOf] using this.1
    simp only [acquireLoop]
    split
    · exact ih n hwk_rest hnd_rest
    · split
      · refine ⟨(ih n hwk_rest hnd_rest).1, ?_⟩
        intro i hi
        have hne : i.key ≠ k := by
          intro he
          exact hk_not (he ▸ acquireLoop_batch_key_mem hwk_rest hi)
        simp only [keysOf, List.map_cons, List.mem_cons]
        rintro (h1 | h1)
        · exact hne h1
        · exact (ih n hwk_rest hnd_rest).2 i hi (by simpa [keysOf] using h1)
      · split
        · exact ih n hwk_rest hnd_rest
        · split
          · simp
          · refine ⟨?_, ?_⟩
            · simp only [List.map_cons, List.nodup_cons]
              refine ⟨?_, (ih (n + 1) hwk_rest hnd_rest).1⟩
              intro hmem
              rcases List.mem_map.mp hmem with ⟨j, hj, hkey⟩
              have : j.key ∈ keysOf rest := acquireLoop_batch_key_mem hwk_rest hj
              exact hk_not (by rwa [hkey, ← hk_info] at this)
            · intro i hi
              rcases List.mem_cons.mp hi with h1 | h1
              · subst h1
                intro hmem
                exact hk_not (hk_info ▸ acquireLoop_keep_keys_subset c now res rest (n + 1) _ hmem)
              · exact (ih (n + 1) hwk_rest hnd_rest).2 i h1

theorem get_from_storage_keep_keys_subset {c : Consts} {now : ℤ} {res : String → Bool}
    {d : StoreDict} :
    ∀ k ∈ keysOf (DeletionInfo.get_from_storage c now res d).1, k ∈ keysOf d := by
  intro k hk
  exact (keysOf_sortByNextCheck_perm d).mem_iff.mp
    (acquireLoop_keep_keys_subset c now res (sortByNextCheck d) 0 k hk)

theorem get_from_storage_keep_wellKeyed {c : Consts} {now : ℤ} {res : String → Bool}
    {d : StoreDict} (h : WellKeyed d) :
    WellKeyed (DeletionInfo.get_from_storage c now res d).1 := by
  intro p hp
  exact wellKeyed_sortByNextCheck h p
    ((acquireLoop_keep_sublist c now res (sortByNextCheck d) 0).subset hp)

theorem get_from_storage_keep_nodup {c : Consts} {now : ℤ} {res : String → Bool}
    {d : StoreDict} (h : NodupKeys d) :
    NodupKeys (DeletionInfo.get_from_storage c now res d).1 :=
  (nodupKeys_sortByNextCheck h).sublist
    ((acquireLoop_keep_sublist c now res (sortByNextCheck d) 0).map _)

theorem get_from_storage_batch_mem {c : Consts} {now : ℤ} {res : String → Bool}
    {d : StoreDict} {i : DeletionInfo} (h : i ∈ (DeletionInfo.get_from_storage c now res d).2) :
    (∃ k, (k, i) ∈ d) ∧ i.total_retries < c.MAX_RETRAYABLE_ERROR_RETRIES := by
  rcases acquireLoop_batch_mem c now res (sortByNextCheck d) 0 i h with ⟨⟨k, hk⟩, hbound⟩
  exact ⟨⟨k, (sortByNextCheck_perm d).mem_iff.mp hk⟩, hbound⟩

theorem get_from_storage_batch_key_mem {c : Consts} {now : ℤ} {res : String → Bool}
    {d : StoreDict} {i : DeletionInfo} (hwk : WellKeyed d)
    (h : i ∈ (DeletionInfo.get_from_storage c now res d).2) : i.key ∈ keysOf d :=
  (keysOf_sortByNextCheck_perm d).mem_iff.mp
    (acquireLoop_batch_key_mem (wellKeyed_sortByNextCheck hwk) h)

theorem get_from_storage_batch_nodup {c : Consts} {now : ℤ} {res : String → Bool}
    {d : StoreDict} (hwk : WellKeyed d) (hnd : NodupKeys d) :
    ((DeletionInfo.get_from_storage c now res d).2.map DeletionInfo.key).Nodup :=
  (acquireLoop_keys c now res (sortByNextCheck d) 0 (wellKeyed_sortByNextCheck hwk)
    (nodupKeys_sortByNextCheck hnd)).1

theorem get_from_storage_batch_not_kept {c : Consts} {now : ℤ} {res : String → Bool}
    {d : StoreDict} (hwk : WellKeyed d) (hnd : NodupKeys d) :
    ∀ i ∈ (DeletionInfo.get_from_storage c now res d).2,
      i.key ∉ keysOf (DeletionInfo.get_from_storage c now res d).1 :=
  (acquireLoop_keys c now res (sortByNextCheck d) 0 (wellKeyed_sortByNextCheck hwk)
    (nodupKeys_sortByNextCheck hnd)).2

theorem get_from_storage_batch_length {c : Consts} {now : ℤ} {res : String → Bool}
    (d : StoreDict) :
    (DeletionInfo.get_from_storage c now res d).2.length ≤ c.MAX_DELETIONS_AT_ONCE := by
  have := acquireLoop_batch_le c now res (sortByNextCheck d) 0 (Nat.zero_le _)
  simpa using this

/-! Lemmas about whole-state operations. -/

theorem getGroup_setGroup_same (s : EngineState) (g : DGroup) (d : StoreDict) :
    getGroup (setGroup s g d) g = d := by
  cases g <;> rfl

theorem getGroup_setGroup_ne (s : EngineState) {g g' : DGroup} (d : StoreDict)
    (h : g' ≠ g) : getGroup (setGroup s g d) g' = getGroup s g' := by
  cases g <;> cases g' <;> first | rfl | exact absurd rfl h

theorem keysOf_sync_mem {i : DeletionInfo} {g : DGroup} {s : EngineState} {g' : DGroup}
    {k : String} :
    k ∈ keysOf (getGroup (i.sync_to_storage g s) g') ↔
      (g' = g ∧ k = i.key) ∨ k ∈ keysOf (getGroup s g') := by
  unfold DeletionInfo.sync_to_storage
  by_cases hg : g' = g
  · subst hg
    rw [getGroup_setGroup_same]
    rw [keysOf_storeInsert_mem]
    tauto
  · rw [getGroup_setGroup_ne _ _ hg]
    tauto

/-- A processing step only rewrites scheduling fields and counters: the record
identity (vmid, owning service) survives. -/
def StepKeeps (step : DeletionInfo → Option (DGroup × DeletionInfo)) : Prop :=
  ∀ i g2 i2, step i = some (g2, i2) → i2.vmid = i.vmid ∧ i2.service_uuid = i.service_uuid

theorem StepKeeps.key_eq {step : DeletionInfo → Option (DGroup × DeletionInfo)}
    (h : StepKeeps step) {i : DeletionInfo} {g2 : DGroup} {i2 : DeletionInfo}
    (hs : step i = some (g2, i2)) : i2.key = i.key := by
  rcases h i g2 i2 hs with ⟨h1, h2⟩
  simp [DeletionInfo.key, DeletionInfo.generate_key, h1, h2]

theorem sync_to_storage_WF {s : EngineState} {g : DGroup} {i : DeletionInfo}
    (hwf : StateWF s) (habs : ∀ g', i.key ∉ keysOf (getGroup s g')) :
    StateWF (i.sync_to_storage g s) := by
  obtain ⟨hwk, hnd, hcross⟩ := hwf
  refine ⟨?_, ?_, ?_⟩
  · intro g'
    by_cases hg : g' = g
    · subst hg
      unfold DeletionInfo.sync_to_storage
      rw [getGroup_setGroup_same]
      exact wellKeyed_storeInsert rfl (hwk g')
    · unfold DeletionInfo.sync_to_storage
      rw [getGroup_setGroup_ne _ _ hg]
      exact hwk g'
  · intro g'
    by_cases hg : g' = g
    · subst hg
      unfold DeletionInfo.sync_to_storage
      rw [getGroup_setGroup_same]
      exact nodupKeys_storeInsert _ _ (hnd g')
    · unfold DeletionInfo.sync_to_storage
      rw [getGroup_setGroup_ne _ _ hg]
      exact hnd g'
  · intro g1 g2 hne k hk1 hk2
    rw [keysOf_sync_mem] at hk1 hk2
    rcases hk1 with ⟨hg1, hk1⟩ | hk1
    · rcases hk2 with ⟨hg2, _⟩ | hk2
      · exact hne (hg1.trans hg2.symm)
      · exact habs g2 (hk1 ▸ hk2)
    · rcases hk2 with ⟨_, hk2⟩ | hk2
      · exact habs g1 (hk2 ▸ hk1)
      · exact hcross g1 g2 hne k hk1 hk2

theorem foldl_applyStep_WF {step : DeletionInfo → Option (DGroup × DeletionInfo)}
    (hk : StepKeeps step) :
    ∀ (batch : List DeletionInfo) (s : EngineState), StateWF s →
      (∀ i ∈ batch, ∀ g', i.key ∉ keysOf (getGroup s g')) →
      (batch.map DeletionInfo.key).Nodup →
      StateWF (batch.foldl (applyStep step) s) := by
  intro batch
  induction batch with
  | nil => intro s h _ _; simpa using h
  | cons i rest ih =>
    intro s hwf habs hnd
    simp only [List.foldl_cons]
    rcases hstep : step i with _ | ⟨g2, i2⟩
    · have hs : applyStep step s i = s := by simp [applyStep, hstep]
      rw [hs]
      exact ih s hwf (fun j hj => habs j (List.mem_cons_of_mem _ hj))
        (by simpa using hnd.of_cons)
    · have hkey : i2.key = i.key := hk.key_eq hstep
      have hs : applyStep step s i = i2.sync_to_storage g2 s := by simp [applyStep, hstep]
      rw [hs]
      have habs_i : ∀ g', i2.key ∉ keysOf (getGroup s g') := fun g' => hkey ▸ habs i
        (List.mem_cons_self _ _) g'
      refine ih _ (sync_to_storage_WF hwf habs_i) ?_ (by simpa using hnd.of_cons)
      intro j hj g'
      rw [keysOf_sync_mem]
      push_neg
      constructor
      · rintro - he
        rw [hkey] at he
        have : i.key ∈ List.map DeletionInfo.key rest :=
          List.mem_map.mpr ⟨j, hj, he⟩
        simp only [List.map_cons, List.nodup_cons] at hnd
        exact hnd.1 this
      · exact habs j (List.mem_cons_of_mem _ hj) g'

theorem runPhase_WF {c : Consts} {now : ℤ} {res : String → Bool}
    {step : DeletionInfo → Option (DGroup × DeletionInfo)} {g : DGroup} {s : EngineState}
    (hk : StepKeeps step) (hwf : StateWF s) : StateWF (runPhase c now res step g s) := by
  obtain ⟨hwk, hnd, hcross⟩ := hwf
  unfold runPhase
  have hmem : ∀ g' k, k ∈ keysOf (getGroup (setGroup s g
      (DeletionInfo.get_from_storage c now res (getGroup s g)).1) g') →
      k ∈ keysOf (getGroup s g') := by
    intro g' k hkm
    by_cases hg : g' = g
    · subst hg
      rw [getGroup_setGroup_same] at hkm
      exact get_from_storage_keep_keys_subset k hkm
    · rwa [getGroup_setGroup_ne _ _ hg] at hkm
  apply foldl_applyStep_WF hk
  · refine ⟨?_, ?_, ?_⟩
    · intro g'
      by_cases hg : g' = g
      · subst hg
        rw [getGroup_setGroup_same]
        exact get_from_storage_keep_wellKeyed (hwk g')
      · rw [getGroup_setGroup_ne _ _ hg]
        exact hwk g'
    · intro g'
      by_cases hg : g' = g
      · subst hg
        rw [getGroup_setGroup_same]
        exact get_from_storage_keep_nodup (hnd g')
      · rw [getGroup_setGroup_ne _ _ hg]
        exact hnd g'
    · intro g1 g2 hne k hk1 hk2
      exact hcross g1 g2 hne k (hmem g1 k hk1) (hmem g2 k hk2)
  · intro i hi g'
    by_cases hg : g' = g
    · subst hg
      rw [getGroup_setGroup_same]
      exact get_from_storage_batch_not_kept (hwk g') (hnd g') i hi
    · rw [getGroup_setGroup_ne _ _ hg]
      intro hkm
      have hbk : i.key ∈ keysOf (getGroup s g) := get_from_storage_batch_key_mem (hwk g) hi
      exact hcross g g' (fun he => hg he.symm) i.key hbk hkm
  · exact get_from_storage_batch_nodup (hwk g) (hnd g)

/-! Characterisation of the per-item steps, as needed for the invariants. -/

theorem process_exception_some {c : Consts} {now : ℤ} {info : DeletionInfo} {tg : DGroup}
    {e : ExcKind} {dr : ℤ} {g2 : DGroup} {i2 : DeletionInfo}
    (h : DeferredDeletionWorker.process_exception c now info tg e dr = some (g2, i2)) :
    g2 = tg ∧ i2.vmid = info.vmid ∧ i2.service_uuid = info.service_uuid ∧
      i2.retries = info.retries ∧
      i2.total_retries < c.MAX_RETRAYABLE_ERROR_RETRIES ∧
      (i2.fatal_retries = info.fatal_retries ∨ i2.fatal_retries < c.MAX_FATAL_ERROR_RETRIES) := by
  cases e with
  | notFound => simp [DeferredDeletionWorker.process_exception] at h
  | retryable =>
    simp only [DeferredDeletionWorker.process_exception] at h
    split at h
    · simp at h
    · rename_i hlt
      simp only [Option.some.injEq, Prod.mk.injEq] at h
      obtain ⟨h1, h2⟩ := h
      subst h1
      subst h2
      refine ⟨rfl, rfl, rfl, rfl, ?_, Or.inl rfl⟩
      exact Nat.lt_of_not_le hlt
  | fatal =>
    simp only [DeferredDeletionWorker.process_exception] at h
    split at h
    · simp at h
    · rename_i hfat
      split at h
      · simp at h
      · rename_i hlt
        simp only [Option.some.injEq, Prod.mk.injEq] at h
        obtain ⟨h1, h2⟩ := h
        subst h1
        subst h2
        refine ⟨rfl, rfl, rfl, rfl, ?_, Or.inr ?_⟩
        · exact Nat.lt_of_not_le hlt
        · exact Nat.lt_of_not_le hfat

theorem process_to_stop_one_props {c : Consts} {now : ℤ} {o : CallOutcomes} {svc : SvcFlags}
    {info : DeletionInfo} {g2 : DGroup} {i2 : DeletionInfo}
    (h : DeferredDeletionWorker.process_to_stop_one c now o svc info = some (g2, i2)) :
    i2.vmid = info.vmid ∧ i2.service_uuid = info.service_uuid ∧
      (info.total_retries < c.MAX_RETRAYABLE_ERROR_RETRIES →
        info.fatal_retries ≤ c.MAX_FATAL_ERROR_RETRIES →
        i2.total_retries ≤ c.MAX_RETRAYABLE_ERROR_RETRIES ∧
          i2.fatal_retries ≤ c.MAX_FATAL_ERROR_RETRIES) := by
  unfold DeferredDeletionWorker.process_to_stop_one at h
  split at h
  · rcases process_exception_some h with ⟨-, h1, h2, -, ht, hf⟩
    refine ⟨h1, h2, fun _ hfb => ⟨Nat.le_of_lt ht, ?_⟩⟩
    rcases hf with hf | hf
    · exact hf ▸ hfb
    · exact Nat.le_of_lt hf
  · simp only [Option.some.injEq, Prod.mk.injEq] at h
    obtain ⟨-, h2⟩ := h
    subst h2
    exact ⟨rfl, rfl, fun ht hf => ⟨Nat.le_of_lt ht, hf⟩⟩
  · split at h
    · split at h
      · rcases process_exception_some h with ⟨-, h1, h2, -, ht, hf⟩
        refine ⟨h1, h2, fun _ hfb => ⟨Nat.le_of_lt ht, ?_⟩⟩
        rcases hf with hf | hf
        · exact hf ▸ hfb
        · exact Nat.le_of_lt hf
      · simp only [Option.some.injEq, Prod.mk.injEq] at h
        obtain ⟨-, h2⟩ := h
        subst h2
        exact ⟨rfl, rfl, fun _ _ => ⟨Nat.zero_le _, Nat.zero_le _⟩⟩
    · split at h
      · rcases process_exception_some h with ⟨-, h1, h2, -, ht, hf⟩
        refine ⟨h1, h2, fun _ hfb => ⟨Nat.le_of_lt ht, ?_⟩⟩
        rcases hf with hf | hf
        · exact hf ▸ hfb
        · exact Nat.le_of_lt hf
      · simp only [Option.some.injEq, Prod.mk.injEq] at h
        obtain ⟨-, h2⟩ := h
        subst h2
        exact ⟨rfl, rfl, fun ht hf => ⟨ht, hf⟩⟩

theorem process_stopping_one_props {c : Consts} {now : ℤ} {o : CallOutcomes}
    {info : DeletionInfo} {g2 : DGroup} {i2 : DeletionInfo}
    (h : DeferredDeletionWorker.process_stopping_one c now o info = some (g2, i2)) :
    i2.vmid = info.vmid ∧ i2.service_uuid = info.service_uuid ∧
      (info.total_retries < c.MAX_RETRAYABLE_ERROR_RETRIES →
        info.fatal_retries ≤ c.MAX_FATAL_ERROR_RETRIES →
        i2.total_retries ≤ c.MAX_RETRAYABLE_ERROR_RETRIES ∧
          i2.fatal_retries ≤ c.MAX_FATAL_ERROR_RETRIES) := by
  unfold DeferredDeletionWorker.process_stopping_one at h
  dsimp only at h
  split at h
  · simp only [Option.some.injEq, Prod.mk.injEq] at h
    obtain ⟨-, h2⟩ := h
    subst h2
    exact ⟨rfl, rfl, fun ht hf => ⟨ht, hf⟩⟩
  · split at h
    · rcases process_exception_some h with ⟨-, h1, h2, -, ht, hf⟩
      refine ⟨h1, h2, fun _ hfb => ⟨Nat.le_of_lt ht, ?_⟩⟩
      rcases hf with hf | hf
      · exact hf ▸ hfb
      · exact Nat.le_of_lt hf
    · simp only [Option.some.injEq, Prod.mk.injEq] at h
      obtain ⟨-, h2⟩ := h
      subst h2
      exact ⟨rfl, rfl, fun ht hf => ⟨ht, hf⟩⟩
    · simp only [Option.some.injEq, Prod.mk.injEq] at h
      obtain ⟨-, h2⟩ := h
      subst h2
      exact ⟨rfl, rfl, fun _ _ => ⟨Nat.zero_le _, Nat.zero_le _⟩⟩

theorem process_to_delete_one_props {c : Consts} {now : ℤ} {o : CallOutcomes} {svc : SvcFlags}
    {info : DeletionInfo} {g2 : DGroup} {i2 : DeletionInfo}
    (h : DeferredDeletionWorker.process_to_delete_one c now o svc info = some (g2, i2)) :
    i2.vmid = info.vmid ∧ i2.service_uuid = info.service_uuid ∧
      (info.total_retries < c.MAX_RETRAYABLE_ERROR_RETRIES →
        info.fatal_retries ≤ c.MAX_FATAL_ERROR_RETRIES →
        i2.total_retries ≤ c.MAX_RETRAYABLE_ERROR_RETRIES ∧
          i2.fatal_retries ≤ c.MAX_FATAL_ERROR_RETRIES) := by
  unfold DeferredDeletionWorker.process_to_delete_one at h
  split at h
  · rcases process_exception_some h with ⟨-, h1, h2, -, ht, hf⟩
    refine ⟨h1, h2, fun _ hfb => ⟨Nat.le_of_lt ht, ?_⟩⟩
    rcases hf with hf | hf
    · exact hf ▸ hfb
    · exact Nat.le_of_lt hf
  · simp only [Option.some.injEq, Prod.mk.injEq] at h
    obtain ⟨-, h2⟩ := h
    subst h2
    exact ⟨rfl, rfl, fun ht hf => ⟨Nat.le_of_lt ht, hf⟩⟩
  · split at h
    · rcases process_exception_some h with ⟨-, h1, h2, -, ht, hf⟩
      refine ⟨h1, h2, fun _ hfb => ⟨Nat.le_of_lt ht, ?_⟩⟩
      rcases hf with hf | hf
      · exact hf ▸ hfb
      · exact Nat.le_of_lt hf
    · simp only [Option.some.injEq, Prod.mk.injEq] at h
      obtain ⟨-, h2⟩ := h
      subst h2
      exact ⟨rfl, rfl, fun ht hf => ⟨ht, hf⟩⟩

theorem process_deleting_one_props {c : Consts} {now : ℤ} {o : CallOutcomes}
    {info : DeletionInfo} {g2 : DGroup} {i2 : DeletionInfo}
    (h : DeferredDeletionWorker.process_deleting_one c now o info = some (g2, i2)) :
    i2.vmid = info.vmid ∧ i2.service_uuid = info.service_uuid ∧
      (info.total_retries < c.MAX_RETRAYABLE_ERROR_RETRIES →
        info.fatal_retries ≤ c.MAX_FATAL_ERROR_RETRIES →
        i2.total_retries ≤ c.MAX_RETRAYABLE_ERROR_RETRIES ∧
          i2.fatal_retries ≤ c.MAX_FATAL_ERROR_RETRIES) := by
  unfold DeferredDeletionWorker.process_deleting_one at h
  dsimp only at h
  split at h
  · simp only [Option.some.injEq, Prod.mk.injEq] at h
    obtain ⟨-, h2⟩ := h
    subst h2
    exact ⟨rfl, rfl, fun ht hf => ⟨ht, hf⟩⟩
  · split at h
    · rcases process_exception_some h with ⟨-, h1, h2, -, ht, hf⟩
      refine ⟨h1, h2, fun _ hfb => ⟨Nat.le_of_lt ht, ?_⟩⟩
      rcases hf with hf | hf
      · exact hf ▸ hfb
      · exact Nat.le_of_lt hf
    · simp at h
    · simp only [Option.some.injEq, Prod.mk.injEq] at h
      obtain ⟨-, h2⟩ := h
      subst h2
      exact ⟨rfl, rfl, fun ht hf => ⟨ht, hf⟩⟩

theorem process_to_stop_WF {c : Consts} {now : ℤ} {env : TickEnv} {s : EngineState}
    (hwf : StateWF s) : StateWF (DeferredDeletionWorker.process_to_stop c now env s) :=
  runPhase_WF (fun _ _ _ h => ⟨(process_to_stop_one_props h).1,
    (process_to_stop_one_props h).2.1⟩) hwf

theorem process_stopping_WF {c : Consts} {now : ℤ} {env : TickEnv} {s : EngineState}
    (hwf : StateWF s) : StateWF (DeferredDeletionWorker.process_stopping c now env s) :=
  runPhase_WF (fun _ _ _ h => ⟨(process_stopping_one_props h).1,
    (process_stopping_one_props h).2.1⟩) hwf

theorem process_to_delete_WF {c : Consts} {now : ℤ} {env : TickEnv} {s : EngineState}
    (hwf : StateWF s) : StateWF (DeferredDeletionWorker.process_to_delete c now env s) :=
  runPhase_WF (fun _ _ _ h => ⟨(process_to_delete_one_props h).1,
    (process_to_delete_one_props h).2.1⟩) hwf

theorem process_deleting_WF {c : Consts} {now : ℤ} {env : TickEnv} {s : EngineState}
    (hwf : StateWF s) : StateWF (DeferredDeletionWorker.process_deleting c now env s) :=
  runPhase_WF (fun _ _ _ h => ⟨(process_deleting_one_props h).1,
    (process_deleting_one_props h).2.1⟩) hwf

theorem run_WF {c : Consts} {now : ℤ} {env : TickEnv} {s : EngineState}
    (hwf : StateWF s) : StateWF (DeferredDeletionWorker.run c now env s) :=
  process_deleting_WF (process_to_delete_WF (process_stopping_WF (process_to_stop_WF hwf)))

/-! Preservation of the retry-budget bounds. -/

theorem records_sync {c : Consts} {s : EngineState} {g : DGroup} {i : DeletionInfo}
    (h : RecordsOK c s)
    (hi : i.total_retries ≤ c.MAX_RETRAYABLE_ERROR_RETRIES ∧
      i.fatal_retries ≤ c.MAX_FATAL_ERROR_RETRIES) :
    RecordsOK c (i.sync_to_storage g s) := by
  intro g' p hp
  unfold DeletionInfo.sync_to_storage at hp
  by_cases hg : g' = g
  · subst hg
    rw [getGroup_setGroup_same] at hp
    rcases mem_storeInsert hp with h1 | h1
    · exact h g' p h1
    · subst h1
      exact hi
  · rw [getGroup_setGroup_ne _ _ hg] at hp
    exact h g' p hp

theorem foldl_applyStep_OK {c : Consts} {step : DeletionInfo → Option (DGroup × DeletionInfo)}
    (hb : ∀ i g2 i2, step i = some (g2, i2) →
      i.total_retries < c.MAX_RETRAYABLE_ERROR_RETRIES →
      i.fatal_retries ≤ c.MAX_FATAL_ERROR_RETRIES →
      i2.total_retries ≤ c.MAX_RETRAYABLE_ERROR_RETRIES ∧
        i2.fatal_retries ≤ c.MAX_FATAL_ERROR_RETRIES) :
    ∀ (batch : List DeletionInfo) (s : EngineState), RecordsOK c s →
      (∀ i ∈ batch, i.total_retries < c.MAX_RETRAYABLE_ERROR_RETRIES ∧
        i.fatal_retries ≤ c.MAX_FATAL_ERROR_RETRIES) →
      RecordsOK c (batch.foldl (applyStep step) s) := by
  intro batch
  induction batch with
  | nil => intro s h _; simpa using h
  | cons i rest ih =>
    intro s hok hbatch
    simp only [List.foldl_cons]
    rcases hstep : step i with _ | ⟨g2, i2⟩
    · have hs : applyStep step s i = s := by simp [applyStep, hstep]
      rw [hs]
      exact ih s hok (fun j hj => hbatch j (List.mem_cons_of_mem _ hj))
    · have hs : applyStep step s i = i2.sync_to_storage g2 s := by simp [applyStep, hstep]
      rw [hs]
      have hi := hbatch i (List.mem_cons_self _ _)
      exact ih _ (records_sync hok (hb i g2 i2 hstep hi.1 hi.2))
        (fun j hj => hbatch j (List.mem_cons_of_mem _ hj))

theorem runPhase_OK {c : Consts} {now : ℤ} {res : String → Bool}
    {step : DeletionInfo → Option (DGroup × DeletionInfo)} {g : DGroup} {s : EngineState}
    (hb : ∀ i g2 i2, step i = some (g2, i2) →
      i.total_retries < c.MAX_RETRAYABLE_ERROR_RETRIES →
      i.fatal_retries ≤ c.MAX_FATAL_ERROR_RETRIES →
      i2.total_retries ≤ c.MAX_RETRAYABLE_ERROR_RETRIES ∧
        i2.fatal_retries ≤ c.MAX_FATAL_ERROR_RETRIES)
    (hok : RecordsOK c s) : RecordsOK c (runPhase c now res step g s) := by
  unfold runPhase
  apply foldl_applyStep_OK hb
  · intro g' p hp
    by_cases hg : g' = g
    · subst hg
      rw [getGroup_setGroup_same] at hp
      have hp2 : p ∈ getGroup s g' := by
        have h1 := (acquireLoop_keep_sublist c now res
          (sortByNextCheck (getGroup s g')) 0).subset hp
        exact (sortByNextCheck_perm (getGroup s g')).mem_iff.mp h1
      exact hok g' p hp2
    · rw [getGroup_setGroup_ne _ _ hg] at hp
      exact hok g' p hp
  · intro i hi
    rcases get_from_storage_batch_mem hi with ⟨⟨k, hk⟩, hbound⟩
    exact ⟨hbound, (hok g (k, i) hk).2⟩

theorem run_OK {c : Consts} {now : ℤ} {env : TickEnv} {s : EngineState}
    (hok : RecordsOK c s) : RecordsOK c (DeferredDeletionWorker.run c now env s) := by
  unfold DeferredDeletionWorker.run DeferredDeletionWorker.process_to_stop
    DeferredDeletionWorker.process_stopping DeferredDeletionWorker.process_to_delete
    DeferredDeletionWorker.process_deleting
  apply runPhase_OK (fun _ _ _ h => (process_deleting_one_props h).2.2)
  apply runPhase_OK (fun _ _ _ h => (process_to_delete_one_props h).2.2)
  apply runPhase_OK (fun _ _ _ h => (process_stopping_one_props h).2.2)
  apply runPhase_OK (fun _ _ _ h => (process_to_stop_one_props h).2.2)
  exact hok

theorem create_on_storage_OK {c : Consts} {now : ℤ} {g : DGroup} {vmid su : String}
    {dr : ℤ} {s : EngineState} (h : RecordsOK c s) :
    RecordsOK c (DeletionInfo.create_on_storage c now g vmid su dr s) := by
  intro g' p hp
  unfold DeletionInfo.create_on_storage at hp
  by_cases hg : g' = g
  · subst hg
    rw [getGroup_setGroup_same] at hp
    rcases mem_storeInsert hp with h1 | h1
    · exact h g' p h1
    · subst h1
      exact ⟨Nat.zero_le _, Nat.zero_le _⟩
  · rw [getGroup_setGroup_ne _ _ hg] at hp
    exact h g' p hp

theorem add_OK {c : Consts} {now : ℤ} {svc : SvcFlags} {oc : CallOutcomes}
    {su vmid : String} {el : Bool} {s : EngineState} (h : RecordsOK c s) :
    RecordsOK c (DeferredDeletionWorker.add c now svc oc su vmid el s) := by
  unfold DeferredDeletionWorker.add DeferredDeletionWorker.addExecuteDelete
  repeat' split
  all_goals first
    | exact h
    | exact create_on_storage_OK h

theorem emptyState_OK (c : Consts) : RecordsOK c emptyState := by
  intro g p hp
  cases g <;> simp [getGroup, emptyState] at hp

theorem storeLookup_storeInsert_self (d : StoreDict) (k : String) (v : DeletionInfo) :
    storeLookup (storeInsert d k v) k = some v := by
  unfold storeLookup storeInsert
  have hnone : (d.filter (fun p => p.1 != k)).find? (fun p => p.1 == k) = none := by
    rw [List.find?_eq_none]
    intro p hp
    have := List.of_mem_filter hp
    simp only [bne_iff_ne, ne_eq] at this
    simp [this]
  rw [List.find?_append, hnone]
  simp

theorem countKey_storeInsert_self (d : StoreDict) (k : String) (v : DeletionInfo) :
    countKey (storeInsert d k v) k = 1 := by
  unfold countKey storeInsert
  rw [List.filter_append]
  have h0 : (d.filter (fun p => p.1 != k)).filter (fun p => p.1 == k) = [] := by
    rw [List.filter_eq_nil_iff]
    intro p hp
    have := List.of_mem_filter hp
    simp only [bne_iff_ne, ne_eq] at this
    simp [this]
  simp [h0]

/-! The claims. -/

/-- Claim C4: the batch a phase acquires from its group and hands to
processing never holds more than MAX_DELETIONS_AT_ONCE items, no matter how
many due items the group contains. -/
theorem claim_C4_batch_at_most_max (c : Consts) (now : ℤ) (res : String → Bool)
    (d : StoreDict) :
    (DeletionInfo.get_from_storage c now res d).2.length ≤ c.MAX_DELETIONS_AT_ONCE :=
  get_from_storage_batch_length d

/-- Claim C7: a TO_STOP item whose driver reports it is not running is
persisted into TO_DELETE with every field unchanged; in particular next_check
is not updated. -/
theorem claim_C7_not_running_unchanged (c : Consts) (now : ℤ) (o : CallOutcomes)
    (svc : SvcFlags) (info : DeletionInfo) (h : o.is_running = DRes.ok false) :
    DeferredDeletionWorker.process_to_stop_one c now o svc info =
      some (DGroup.to_delete, info) := by
  unfold DeferredDeletionWorker.process_to_stop_one
  rw [h]

theorem claim_C7_witness :
    DeferredDeletionWorker.process_to_stop_one ⟨32, 2, 5, 10, 10, 3⟩ 7
      ⟨DRes.ok false, DRes.ok (), DRes.ok (), DRes.ok (), DRes.ok false, 4⟩ ⟨true, true⟩
      ⟨"vm1", 1, 2, "svc1", 1, 2, 3⟩ =
      some (DGroup.to_delete, ⟨"vm1", 1, 2, "svc1", 1, 2, 3⟩) :=
  claim_C7_not_running_unchanged ⟨32, 2, 5, 10, 10, 3⟩ 7
    ⟨DRes.ok false, DRes.ok (), DRes.ok (), DRes.ok (), DRes.ok false, 4⟩ ⟨true, true⟩
    ⟨"vm1", 1, 2, "svc1", 1, 2, 3⟩ rfl

/-- Claim C9: in process_to_stop, an item with retries at least RETRIES_TO_RETRY
and a running VM has total_retries bumped and retries reset before the forced
stop call; when that call raises RetryableError the already-mutated record goes
through the exception handler, so (when total_retries + 2 is still under the
budget) it is re-persisted into TO_STOP with total_retries two larger than at
acquisition and retries zero: the pre-call mutations are not rolled back. -/
theorem claim_C9_mutations_not_rolled_back (c : Consts) (now : ℤ) (o : CallOutcomes)
    (svc : SvcFlags) (info : DeletionInfo)
    (h1 : c.RETRIES_TO_RETRY ≤ info.retries)
    (h2 : o.is_running = DRes.ok true)
    (h3 : o.stop = DRes.exc ExcKind.retryable)
    (h4 : info.total_retries + 2 < c.MAX_RETRAYABLE_ERROR_RETRIES) :
    DeferredDeletionWorker.process_to_stop_one c now o svc info =
      some (DGroup.to_stop, { info with
        retries := 0
        total_retries := info.total_retries + 2
        next_check := next_execution_calculator c now false o.delay_rate }) := by
  unfold DeferredDeletionWorker.process_to_stop_one
  rw [h2]
  dsimp only
  rw [if_neg (Nat.not_lt.mpr h1), h3]
  unfold DeferredDeletionWorker.process_exception
  dsimp only
  rw [if_neg (Nat.not_le.mpr (by omega : info.total_retries + 1 + 1 <
    c.MAX_RETRAYABLE_ERROR_RETRIES))]

theorem claim_C9_witness :
    DeferredDeletionWorker.process_to_stop_one ⟨32, 2, 5, 10, 10, 1⟩ 0
      ⟨DRes.ok true, DRes.ok (), DRes.exc ExcKind.retryable, DRes.ok (), DRes.ok false, 2⟩
      ⟨true, false⟩ ⟨"vm1", 0, 0, "svc1", 0, 0, 1⟩ =
      some (DGroup.to_stop,
        { vmid := "vm1", created := 0,
          next_check := next_execution_calculator ⟨32, 2, 5, 10, 10, 1⟩ 0 false 2,
          service_uuid := "svc1", fatal_retries := 0, total_retries := 2, retries := 0 }) :=
  claim_C9_mutations_not_rolled_back ⟨32, 2, 5, 10, 10, 1⟩ 0
    ⟨DRes.ok true, DRes.ok (), DRes.exc ExcKind.retryable, DRes.ok (), DRes.ok false, 2⟩
    ⟨true, false⟩ ⟨"vm1", 0, 0, "svc1", 0, 0, 1⟩ (by decide) rfl rfl (by decide)

/-- Claim C5 counterexample: in process_stopping with RETRIES_TO_RETRY 0 and
CHECK_INTERVAL 32, a give-up item is persisted into TO_STOP with next_check
32, which is not at or before the current time 0, and re-reading the group at
that same time acquires nothing: the item cannot be picked right away. -/
theorem claim_C5_counterexample :
    DeferredDeletionWorker.process_stopping_one ⟨32, 2, 5, 10, 10, 0⟩ 0
      ⟨DRes.ok true, DRes.ok (), DRes.ok (), DRes.ok (), DRes.ok false, 1⟩
      ⟨"v", 0, 0, "s", 0, 0, 0⟩ =
      some (DGroup.to_stop, ⟨"v", 0, 32, "s", 0, 1, 1⟩) ∧
    ¬ ((32 : ℤ) ≤ 0) ∧
    DeletionInfo.get_from_storage ⟨32, 2, 5, 10, 10, 0⟩ 0 (fun _ => true)
      [("s_v", ⟨"v", 0, 32, "s", 0, 1, 1⟩)] =
      ([("s_v", ⟨"v", 0, 32, "s", 0, 1, 1⟩)], []) := by
  decide

/-- Claim C5 (amended): a STOPPING item whose incremented retries counter
exceeds RETRIES_TO_RETRY is persisted into TO_STOP with total_retries bumped
and next_check set to now plus the base CHECK_INTERVAL (delay rate 1); no
driver call is made (the result does not depend on the call outcomes), and the
item becomes due for a forced stop only after that base interval. -/
theorem claim_C5_amended_giveup_to_stop (c : Consts) (now : ℤ) (o : CallOutcomes)
    (info : DeletionInfo) (h : c.RETRIES_TO_RETRY < info.retries + 1) :
    DeferredDeletionWorker.process_stopping_one c now o info =
      some (DGroup.to_stop, { info with
        retries := info.retries + 1
        total_retries := info.total_retries + 1
        next_check := next_execution_calculator c now false 1 }) := by
  unfold DeferredDeletionWorker.process_stopping_one
  dsimp only
  rw [if_pos h]

theorem claim_C5_amended_witness :
    DeferredDeletionWorker.process_stopping_one ⟨32, 2, 5, 10, 10, 0⟩ 5
      ⟨DRes.exc ExcKind.fatal, DRes.ok (), DRes.ok (), DRes.ok (), DRes.ok false, 9⟩
      ⟨"vm1", 0, 3, "svc1", 1, 4, 0⟩ =
      some (DGroup.to_stop,
        { vmid := "vm1", created := 0,
          next_check := next_execution_calculator ⟨32, 2, 5, 10, 10, 0⟩ 5 false 1,
          service_uuid := "svc1", fatal_retries := 1, total_retries := 5, retries := 1 }) :=
  claim_C5_amended_giveup_to_stop ⟨32, 2, 5, 10, 10, 0⟩ 5
    ⟨DRes.exc ExcKind.fatal, DRes.ok (), DRes.ok (), DRes.ok (), DRes.ok false, 9⟩
    ⟨"vm1", 0, 3, "svc1", 1, 4, 0⟩ (by decide)

/-- Claim C1 (code bug evidence): a fatal exception with neither budget
exhausted re-persists into the current group with fatal_retries and
total_retries each bumped by one, but next_check equals T plus
CHECK_INTERVAL times delay_rate: the handler first writes the fatal value and
then unconditionally overwrites it with the non-fatal one, so the fatal
multiplier (2 here) is lost.  With T 100, CHECK_INTERVAL 32 and delay_rate 3
the persisted next_check is 196, not the 292 the claim requires. -/
theorem claim_C1_fatal_multiplier_lost :
    DeferredDeletionWorker.process_exception ⟨32, 2, 5, 10, 10, 3⟩ 100
      ⟨"vm1", 0, 90, "svc1", 0, 0, 0⟩ DGroup.to_delete ExcKind.fatal 3 =
      some (DGroup.to_delete, ⟨"vm1", 0, 196, "svc1", 1, 1, 0⟩) ∧
    (196 : ℤ) = 100 + 32 * 3 ∧
    (196 : ℤ) ≠ 100 + 32 * 2 * 3 := by
  decide

/-- Claim C6: adding the same (service, vmid) twice with execute_later leaves
exactly one entry for the key in the destination group (TO_STOP when the
service must stop before deletion, else TO_DELETE), and that entry is the one
created by the second call. -/
theorem claim_C6_add_twice_single_entry (c : Consts) (t1 t2 : ℤ) (svc : SvcFlags)
    (oc : CallOutcomes) (su vmid : String) (s : EngineState) :
    countKey
      (getGroup
        (DeferredDeletionWorker.add c t2 svc oc su vmid true
          (DeferredDeletionWorker.add c t1 svc oc su vmid true s))
        (if svc.must_stop_before_deletion then DGroup.to_stop else DGroup.to_delete))
      (DeletionInfo.generate_key su vmid) = 1 ∧
    storeLookup
      (getGroup
        (DeferredDeletionWorker.add c t2 svc oc su vmid true
          (DeferredDeletionWorker.add c t1 svc oc su vmid true s))
        (if svc.must_stop_before_deletion then DGroup.to_stop else DGroup.to_delete))
      (DeletionInfo.generate_key su vmid) =
      some ⟨vmid, t2, next_execution_calculator c t2 false 1, su, 0, 0, 0⟩ := by
  cases hm : svc.must_stop_before_deletion with
  | true =>
    simp only [DeferredDeletionWorker.add, DeletionInfo.create_on_storage, hm, if_true,
      if_pos rfl]
    rw [getGroup_setGroup_same]
    exact ⟨countKey_storeInsert_self _ _ _, storeLookup_storeInsert_self _ _ _⟩
  | false =>
    simp only [DeferredDeletionWorker.add, DeletionInfo.create_on_storage, hm,
      Bool.false_eq_true, if_false, if_true]
    rw [getGroup_setGroup_same]
    exact ⟨countKey_storeInsert_self _ _ _, storeLookup_storeInsert_self _ _ _⟩

/-- Claim C10: the synchronous add path that stops a running VM and succeeds
creates the STOPPING entry with all three counters zero and next_check equal to
now plus CHECK_INTERVAL exactly: the measured delay rate of the call is not
applied on this path (create_on_storage is called with the default rate 1). -/
theorem claim_C10_stopping_entry_base_interval (c : Consts) (now : ℤ) (svc : SvcFlags)
    (oc : CallOutcomes) (su vmid : String) (s : EngineState)
    (h1 : svc.must_stop_before_deletion = true)
    (h2 : oc.is_running = DRes.ok true)
    (h3 : (if svc.should_try_soft_shutdown then oc.shutdown else oc.stop) = DRes.ok ()) :
    storeLookup
      (getGroup (DeferredDeletionWorker.add c now svc oc su vmid false s) DGroup.stopping)
      (DeletionInfo.generate_key su vmid) =
      some ⟨vmid, now, now + c.CHECK_INTERVAL, su, 0, 0, 0⟩ := by
  unfold DeferredDeletionWorker.add
  rw [if_neg (by simp), if_pos h1, h2]
  rw [h3]
  unfold DeletionInfo.create_on_storage
  rw [getGroup_setGroup_same]
  have : next_execution_calculator c now false 1 = now + c.CHECK_INTERVAL := by
    unfold next_execution_calculator
    simp
  rw [this]
  exact storeLookup_storeInsert_self _ _ _

theorem claim_C10_witness :
    storeLookup
      (getGroup
        (DeferredDeletionWorker.add ⟨32, 2, 5, 10, 10, 3⟩ 100 ⟨true, true⟩
          ⟨DRes.ok true, DRes.ok (), DRes.ok (), DRes.ok (), DRes.ok false, 7⟩ "svc1" "vm1"
          false emptyState)
        DGroup.stopping)
      (DeletionInfo.generate_key "svc1" "vm1") =
      some ⟨"vm1", 100, 132, "svc1", 0, 0, 0⟩ :=
  claim_C10_stopping_entry_base_interval ⟨32, 2, 5, 10, 10, 3⟩ 100 ⟨true, true⟩
    ⟨DRes.ok true, DRes.ok (), DRes.ok (), DRes.ok (), DRes.ok false, 7⟩ "svc1" "vm1"
    emptyState rfl rfl rfl

/-- Observer for claim C8, retracing the synchronous add path of the source:
the first driver call to raise along the path actually executed (is_running,
then shutdown or stop when the service must stop a running VM, else
execute_delete), if any call raises at all. -/
def firstDriverExc (svc : SvcFlags) (oc : CallOutcomes) : Option ExcKind :=
  if svc.must_stop_before_deletion then
    match oc.is_running with
    | .exc e => some e
    | .ok true =>
      match (if svc.should_try_soft_shutdown then oc.shutdown else oc.stop) with
      | .exc e => some e
      | .ok _ => none
    | .ok false =>
      match oc.execute_delete with
      | .exc e => some e
      | .ok _ => none
  else
    match oc.execute_delete with
    | .exc e => some e
    | .ok _ => none

/-- Claim C8: a synchronous add never propagates a driver exception: when the
first raising call raises NotFoundError the state is returned unchanged (no
entry persisted anywhere), and when it raises anything else the call returns
normally with an entry persisted into TO_DELETE (fresh counters, next_check
from the measured delay rate). -/
theorem claim_C8_add_swallows_exceptions (c : Consts) (now : ℤ) (svc : SvcFlags)
    (oc : CallOutcomes) (su vmid : String) (s : EngineState) :
    (firstDriverExc svc oc = some ExcKind.notFound →
      DeferredDeletionWorker.add c now svc oc su vmid false s = s) ∧
    (∀ e, firstDriverExc svc oc = some e → e ≠ ExcKind.notFound →
      DeferredDeletionWorker.add c now svc oc su vmid false s =
        DeletionInfo.create_on_storage c now DGroup.to_delete vmid su oc.delay_rate s) := by
  cases hm : svc.must_stop_before_deletion with
  | false =>
    rcases hd : oc.execute_delete with u | e
    · constructor
      · intro h
        simp [firstDriverExc, hm, hd] at h
      · intro e h
        simp [firstDriverExc, hm, hd] at h
    · constructor
      · intro h
        simp only [firstDriverExc, hm, Bool.false_eq_true, if_false, hd,
          Option.some.injEq] at h
        subst h
        simp [DeferredDeletionWorker.add, DeferredDeletionWorker.addExecuteDelete, hm, hd]
      · intro e' h hne
        simp only [firstDriverExc, hm, Bool.false_eq_true, if_false, hd,
          Option.some.injEq] at h
        subst h
        cases e with
        | notFound => exact absurd rfl hne
        | retryable =>
          simp [DeferredDeletionWorker.add, DeferredDeletionWorker.addExecuteDelete, hm, hd]
        | fatal =>
          simp [DeferredDeletionWorker.add, DeferredDeletionWorker.addExecuteDelete, hm, hd]
  | true =>
    rcases hr : oc.is_running with b | e
    · cases b with
      | false =>
        rcases hd : oc.execute_delete with u | e
        · constructor
          · intro h
            simp [firstDriverExc, hm, hr, hd] at h
          · intro e h
            simp [firstDriverExc, hm, hr, hd] at h
        · constructor
          · intro h
            simp only [firstDriverExc, hm, if_true, hr, hd, Option.some.injEq] at h
            subst h
            simp [DeferredDeletionWorker.add, DeferredDeletionWorker.addExecuteDelete,
              hm, hr, hd]
          · intro e' h hne
            simp only [firstDriverExc, hm, if_true, hr, hd, Option.some.injEq] at h
            subst h
            cases e with
            | notFound => exact absurd rfl hne
            | retryable =>
              simp [DeferredDeletionWorker.add, DeferredDeletionWorker.addExecuteDelete,
                hm, hr, hd]
            | fatal =>
              simp [DeferredDeletionWorker.add, DeferredDeletionWorker.addExecuteDelete,
                hm, hr, hd]
      | true =>
        rcases hs : (if svc.should_try_soft_shutdown then oc.shutdown else oc.stop) with u | e
        · constructor
          · intro h
            simp [firstDriverExc, hm, hr, hs] at h
          · intro e h
            simp [firstDriverExc, hm, hr, hs] at h
        · constructor
          · intro h
            simp only [firstDriverExc, hm, if_true, hr, hs, Option.some.injEq] at h
            subst h
            simp [DeferredDeletionWorker.add, hm, hr, hs]
          · intro e' h hne
            simp only [firstDriverExc, hm, if_true, hr, hs, Option.some.injEq] at h
            subst h
            cases e with
            | notFound => exact absurd rfl hne
            | retryable => simp [DeferredDeletionWorker.add, hm, hr, hs]
            | fatal => simp [DeferredDeletionWorker.add, hm, hr, hs]
    · constructor
      · intro h
        simp only [firstDriverExc, hm, if_true, hr, Option.some.injEq] at h
        subst h
        simp [DeferredDeletionWorker.add, hm, hr]
      · intro e' h hne
        simp only [firstDriverExc, hm, if_true, hr, Option.some.injEq] at h
        subst h
        cases e with
        | notFound => exact absurd rfl hne
        | retryable => simp [DeferredDeletionWorker.add, hm, hr]
        | fatal => simp [DeferredDeletionWorker.add, hm, hr]

theorem claim_C8_witness :
    (firstDriverExc ⟨false, true⟩
        ⟨DRes.ok false, DRes.ok (), DRes.ok (), DRes.exc ExcKind.retryable, DRes.ok false, 5⟩ =
      some ExcKind.retryable) ∧
    ExcKind.retryable ≠ ExcKind.notFound ∧
    DeferredDeletionWorker.add ⟨32, 2, 5, 10, 10, 3⟩ 11 ⟨false, true⟩
      ⟨DRes.ok false, DRes.ok (), DRes.ok (), DRes.exc ExcKind.retryable, DRes.ok false, 5⟩
      "svc1" "vm1" false emptyState =
      DeletionInfo.create_on_storage ⟨32, 2, 5, 10, 10, 3⟩ 11 DGroup.to_delete "vm1" "svc1" 5
        emptyState :=
  ⟨by decide, by decide,
    (claim_C8_add_swallows_exceptions ⟨32, 2, 5, 10, 10, 3⟩ 11 ⟨false, true⟩
      ⟨DRes.ok false, DRes.ok (), DRes.ok (), DRes.exc ExcKind.retryable, DRes.ok false, 5⟩
      "svc1" "vm1" emptyState).2 ExcKind.retryable (by decide) (by decide)⟩

/-- Claim C3: after any sequence of add calls and engine ticks starting from
empty storage, every persisted record satisfies total_retries at most
MAX_RETRAYABLE_ERROR_RETRIES and fatal_retries at most MAX_FATAL_ERROR_RETRIES;
records that would exceed a budget are dropped by the handlers and the
acquisition loop, never persisted onward. -/
theorem claim_C3_budget_invariant {c : Consts} {s : EngineState} (h : Reach c s) :
    RecordsOK c s := by
  induction h with
  | empty => exact emptyState_OK c
  | add now svc oc su vmid el _ ih => exact add_OK ih
  | tick now env _ ih => exact run_OK ih

theorem claim_C3_witness :
    RecordsOK ⟨32, 2, 5, 10, 10, 3⟩
      (DeferredDeletionWorker.add ⟨32, 2, 5, 10, 10, 3⟩ 0 ⟨true, true⟩
        ⟨DRes.ok false, DRes.ok (), DRes.ok (), DRes.ok (), DRes.ok false, 1⟩ "svc1" "vm1"
        true emptyState) :=
  claim_C3_budget_invariant
    (Reach.add 0 ⟨true, true⟩ ⟨DRes.ok false, DRes.ok (), DRes.ok (), DRes.ok (), DRes.ok false, 1⟩
      "svc1" "vm1" true Reach.empty)

/-- Claim C2 counterexample: a state reachable by add, tick, add, tick —
ending immediately after a tick — holds the key for service s and vmid v in
both TO_STOP and TO_DELETE at once.  The first add puts the key in TO_STOP,
the first tick moves it to STOPPING, the second add (which does not clear
other groups) recreates it in TO_STOP, and during the second tick the TO_STOP
copy moves to TO_DELETE while the STOPPING copy gives up waiting and moves to
TO_STOP. -/
theorem claim_C2_counterexample :
    Reach ⟨32, 2, 5, 10, 10, 0⟩
      (DeferredDeletionWorker.run ⟨32, 2, 5, 10, 10, 0⟩ 200
        ⟨fun _ => true, fun _ => ⟨true, true⟩,
          fun _ => ⟨DRes.ok false, DRes.ok (), DRes.ok (), DRes.ok (), DRes.ok false, 1⟩,
          fun _ => ⟨DRes.ok true, DRes.ok (), DRes.ok (), DRes.ok (), DRes.ok false, 1⟩,
          fun _ => ⟨DRes.exc ExcKind.retryable, DRes.ok (), DRes.ok (), DRes.ok (),
            DRes.ok false, 1⟩,
          fun _ => ⟨DRes.ok false, DRes.ok (), DRes.ok (), DRes.ok (), DRes.ok false, 1⟩⟩
        (DeferredDeletionWorker.add ⟨32, 2, 5, 10, 10, 0⟩ 100 ⟨true, true⟩
          ⟨DRes.ok false, DRes.ok (), DRes.ok (), DRes.ok (), DRes.ok false, 1⟩ "s" "v" true
          (DeferredDeletionWorker.run ⟨32, 2, 5, 10, 10, 0⟩ 40
            ⟨fun _ => true, fun _ => ⟨true, true⟩,
              fun _ => ⟨DRes.ok true, DRes.ok (), DRes.ok (), DRes.ok (), DRes.ok false, 1⟩,
              fun _ => ⟨DRes.ok true, DRes.ok (), DRes.ok (), DRes.ok (), DRes.ok false, 1⟩,
              fun _ => ⟨DRes.ok false, DRes.ok (), DRes.ok (), DRes.ok (), DRes.ok false, 1⟩,
              fun _ => ⟨DRes.ok false, DRes.ok (), DRes.ok (), DRes.ok (), DRes.ok false, 1⟩⟩
            (DeferredDeletionWorker.add ⟨32, 2, 5, 10, 10, 0⟩ 0 ⟨true, true⟩
              ⟨DRes.ok false, DRes.ok (), DRes.ok (), DRes.ok (), DRes.ok false, 1⟩ "s" "v"
              true emptyState)))) ∧
    hasKey
      (DeferredDeletionWorker.run ⟨32, 2, 5, 10, 10, 0⟩ 200
        ⟨fun _ => true, fun _ => ⟨true, true⟩,
          fun _ => ⟨DRes.ok false, DRes.ok (), DRes.ok (), DRes.ok (), DRes.ok false, 1⟩,
          fun _ => ⟨DRes.ok true, DRes.ok (), DRes.ok (), DRes.ok (), DRes.ok false, 1⟩,
          fun _ => ⟨DRes.exc ExcKind.retryable, DRes.ok (), DRes.ok (), DRes.ok (),
            DRes.ok false, 1⟩,
          fun _ => ⟨DRes.ok false, DRes.ok (), DRes.ok (), DRes.ok (), DRes.ok false, 1⟩⟩
        (DeferredDeletionWorker.add ⟨32, 2, 5, 10, 10, 0⟩ 100 ⟨true, true⟩
          ⟨DRes.ok false, DRes.ok (), DRes.ok (), DRes.ok (), DRes.ok false, 1⟩ "s" "v" true
          (DeferredDeletionWorker.run ⟨32, 2, 5, 10, 10, 0⟩ 40
            ⟨fun _ => true, fun _ => ⟨true, true⟩,
              fun _ => ⟨DRes.ok true, DRes.ok (), DRes.ok (), DRes.ok (), DRes.ok false, 1⟩,
              fun _ => ⟨DRes.ok true, DRes.ok (), DRes.ok (), DRes.ok (), DRes.ok false, 1⟩,
              fun _ => ⟨DRes.ok false, DRes.ok (), DRes.ok (), DRes.ok (), DRes.ok false, 1⟩,
              fun _ => ⟨DRes.ok false, DRes.ok (), DRes.ok (), DRes.ok (), DRes.ok false, 1⟩⟩
            (DeferredDeletionWorker.add ⟨32, 2, 5, 10, 10, 0⟩ 0 ⟨true, true⟩
              ⟨DRes.ok false, DRes.ok (), DRes.ok (), DRes.ok (), DRes.ok false, 1⟩ "s" "v"
              true emptyState)))).to_stop "s_v" ∧
    hasKey
      (DeferredDeletionWorker.run ⟨32, 2, 5, 10, 10, 0⟩ 200
        ⟨fun _ => true, fun _ => ⟨true, true⟩,
          fun _ => ⟨DRes.ok false, DRes.ok (), DRes.ok (), DRes.ok (), DRes.ok false, 1⟩,
          fun _ => ⟨DRes.ok true, DRes.ok (), DRes.ok (), DRes.ok (), DRes.ok false, 1⟩,
          fun _ => ⟨DRes.exc ExcKind.retryable, DRes.ok (), DRes.ok (), DRes.ok (),
            DRes.ok false, 1⟩,
          fun _ => ⟨DRes.ok false, DRes.ok (), DRes.ok (), DRes.ok (), DRes.ok false, 1⟩⟩
        (DeferredDeletionWorker.add ⟨32, 2, 5, 10, 10, 0⟩ 100 ⟨true, true⟩
          ⟨DRes.ok false, DRes.ok (), DRes.ok (), DRes.ok (), DRes.ok false, 1⟩ "s" "v" true
          (DeferredDeletionWorker.run ⟨32, 2, 5, 10, 10, 0⟩ 40
            ⟨fun _ => true, fun _ => ⟨true, true⟩,
              fun _ => ⟨DRes.ok true, DRes.ok (), DRes.ok (), DRes.ok (), DRes.ok false, 1⟩,
              fun _ => ⟨DRes.ok true, DRes.ok (), DRes.ok (), DRes.ok (), DRes.ok false, 1⟩,
              fun _ => ⟨DRes.ok false, DRes.ok (), DRes.ok (), DRes.ok (), DRes.ok false, 1⟩,
              fun _ => ⟨DRes.ok false, DRes.ok (), DRes.ok (), DRes.ok (), DRes.ok false, 1⟩⟩
            (DeferredDeletionWorker.add ⟨32, 2, 5, 10, 10, 0⟩ 0 ⟨true, true⟩
              ⟨DRes.ok false, DRes.ok (), DRes.ok (), DRes.ok (), DRes.ok false, 1⟩ "s" "v"
              true emptyState)))).to_delete "s_v" :=
  ⟨Reach.tick 200 _ (Reach.add 100 _ _ "s" "v" true (Reach.tick 40 _
      (Reach.add 0 _ _ "s" "v" true Reach.empty))),
    by decide, by decide⟩

/-- Claim C2 (amended): engine ticks preserve the at-most-one-group property:
if the storage is well formed (dict groups, records stored under their keys,
each key in at most one group) immediately before a tick, the same holds
immediately after, because each phase removes an acquired record from its
source group before any re-insertion.  The original claim fails only because
add does not clear the key from the other groups. -/
theorem claim_C2_amended_tick_preserves_uniqueness {c : Consts} {now : ℤ} {env : TickEnv}
    {s : EngineState} (h : StateWF s) : StateWF (DeferredDeletionWorker.run c now env s) :=
  run_WF h

theorem claim_C2_amended_witness :
    StateWF
      (DeferredDeletionWorker.run ⟨32, 2, 5, 10, 10, 0⟩ 40
        ⟨fun _ => true, fun _ => ⟨true, true⟩,
          fun _ => ⟨DRes.ok true, DRes.ok (), DRes.ok (), DRes.ok (), DRes.ok false, 1⟩,
          fun _ => ⟨DRes.ok true, DRes.ok (), DRes.ok (), DRes.ok (), DRes.ok false, 1⟩,
          fun _ => ⟨DRes.ok false, DRes.ok (), DRes.ok (), DRes.ok (), DRes.ok false, 1⟩,
          fun _ => ⟨DRes.ok false, DRes.ok (), DRes.ok (), DRes.ok (), DRes.ok false, 1⟩⟩
        (DeferredDeletionWorker.add ⟨32, 2, 5, 10, 10, 0⟩ 0 ⟨true, true⟩
          ⟨DRes.ok false, DRes.ok (), DRes.ok (), DRes.ok (), DRes.ok false, 1⟩ "s" "v" true
          emptyState)) :=
  claim_C2_amended_tick_preserves_uniqueness (by decide)
